import Mathlib

/-!
A shallow embedding of the `github_star_crawler` package
(`partitioning.py`, `github_client.py`, `crawler.py`) and proofs about it.

Modelling conventions:
* Python `int` is `Int`; Python `//` on a positive divisor is `Int`'s `/`
  (Euclidean division agrees with floor division for a positive divisor).
* `datetime.date` values are modelled as proleptic-Gregorian ordinals
  (`Int` days): date subtraction `.days`, `timedelta(days=k)` addition and
  comparisons are exact integer-day arithmetic.
* Python `None` becomes `Option.none`; a Python `set` of strings becomes a
  `List String` used only through membership (insertion order is irrelevant).
* `float` seconds in the backoff computation are modelled as rationals.
* Network I/O is modelled by an explicit environment: the crawler receives
  `env : Nat → Nat → SearchBlock` mapping (request index, requested page
  size) to the decoded `search` block of the response; the GraphQL client
  receives a `script : Nat → HttpResult` mapping the 1-indexed attempt
  number to that attempt's transport-level outcome.  Sleeps (pacing,
  backoff, proactive throttling) have no effect on any returned value or
  on control flow, so they are not modelled.
-/

namespace Partitioning

/-- `EARLIEST_GITHUB_DATE = date(2008, 1, 1)`, whose ordinal is 733042. -/
def EARLIEST_GITHUB_DATE : Int := 733042

/-- `SearchPartition` (partitioning.py): a frozen dataclass with inclusive
star bounds and optional inclusive creation-date bounds. -/
structure SearchPartition where
  stars_min : Int
  stars_max : Int
  created_from : Option Int
  created_to : Option Int
deriving DecidableEq, Repr

/-- `SearchPartition.with_date_window`: if both dates are set, return self
unchanged, else attach the window `[earliest, today]`.  (A Python `date` is
always truthy, so `if self.created_from and self.created_to` tests that both
fields are not `None`.) -/
def SearchPartition.with_date_window (p : SearchPartition) (today : Int)
    (earliest : Int) : SearchPartition :=
  if p.created_from.isSome && p.created_to.isSome then p
  else
    { stars_min := p.stars_min
      stars_max := p.stars_max
      created_from := some earliest
      created_to := some today }

/-- `SearchPartition.split_stars`: `None` when `stars_min >= stars_max`;
otherwise split at `midpoint = (stars_min + stars_max) // 2` into
`high = [midpoint+1, stars_max]` and `low = [stars_min, midpoint]`,
both inheriting the date bounds. -/
def SearchPartition.split_stars (p : SearchPartition) :
    Option (SearchPartition × SearchPartition) :=
  if p.stars_min ≥ p.stars_max then none
  else
    let midpoint := (p.stars_min + p.stars_max) / 2
    let high : SearchPartition :=
      { stars_min := midpoint + 1
        stars_max := p.stars_max
        created_from := p.created_from
        created_to := p.created_to }
    let low : SearchPartition :=
      { stars_min := p.stars_min
        stars_max := midpoint
        created_from := p.created_from
        created_to := p.created_to }
    some (high, low)

/-- `SearchPartition.split_dates`: `None` when either date is absent or
`created_from >= created_to`; otherwise split at
`midpoint = created_from + (created_to - created_from).days // 2` into
`first = [created_from, midpoint]` and `second = [midpoint+1, created_to]`. -/
def SearchPartition.split_dates (p : SearchPartition) :
    Option (SearchPartition × SearchPartition) :=
  match p.created_from, p.created_to with
  | some cf, some ct =>
    if cf ≥ ct then none
    else
      let span_days := ct - cf
      let midpoint := cf + span_days / 2
      let first : SearchPartition :=
        { stars_min := p.stars_min
          stars_max := p.stars_max
          created_from := some cf
          created_to := some midpoint }
      let second : SearchPartition :=
        { stars_min := p.stars_min
          stars_max := p.stars_max
          created_from := some (midpoint + 1)
          created_to := some ct }
      some (first, second)
  | _, _ => none

/-- `SearchPartition.is_single_day`. -/
def SearchPartition.is_single_day (p : SearchPartition) : Bool :=
  match p.created_from, p.created_to with
  | some cf, some ct => cf = ct
  | _, _ => false

/-- `SearchPartition.priority_key`: `(stars_max, -width, -date_width)`. -/
def SearchPartition.priority_key (p : SearchPartition) : Int × Int × Int :=
  let width := p.stars_max - p.stars_min
  let date_width : Int :=
    match p.created_from, p.created_to with
    | some cf, some ct => ct - cf
    | _, _ => 0
  (p.stars_max, -width, -date_width)

end Partitioning

namespace GClient

/-- `RETRYABLE_HTTP_CODES = {403, 429, 500, 502, 503, 504}` (github_client.py). -/
def RETRYABLE_HTTP_CODES : List Nat := [403, 429, 500, 502, 503, 504]

/-- `MAX_SLEEP_SECONDS = 3600`, as a rational number of seconds. -/
def MAX_SLEEP_SECONDS : ℚ := 3600

/-- `GitHubGraphQLClient._compute_backoff`:
`jitter = random.uniform(0.2, 0.8)` is passed in explicitly;
`delay = base_backoff_seconds * 2 ** (attempt - 1)`;
the result is `min(delay + jitter, MAX_SLEEP_SECONDS)`. -/
def compute_backoff (base_backoff_seconds : ℚ) (attempt : ℕ) (jitter : ℚ) : ℚ :=
  min (base_backoff_seconds * 2 ^ (attempt - 1) + jitter) MAX_SLEEP_SECONDS

/-- One entry of a GraphQL `errors` list: its `type` and `message` fields
(absent fields decode as `""` via `error.get(..., "")`). -/
structure GqlError where
  ty : String
  msg : String
deriving DecidableEq, Repr

/-- The decoded JSON body of a 2xx/3xx response: the `data` value (opaque
here) and the `errors` list. -/
structure GqlPayload where
  dataStr : String
  errors : List GqlError
deriving DecidableEq, Repr

/-- Transport-level outcome of one POST attempt:
either `requests` raised (`netErr`), or a response arrived with a status
code, a body text, and a body that parses as JSON (`Except.ok`) or fails to
parse, carrying the `ValueError` text (`Except.error`). -/
inductive HttpResult where
  | netErr (msg : String)
  | resp (status : Nat) (text : String) (json : Except String GqlPayload)
deriving Repr

/-- Substring test: `pat in s` for Python strings. -/
def strContains (s pat : String) : Bool :=
  decide (pat.toList.IsInfix s.toList)

/-- `GitHubGraphQLClient._errors_are_retryable`: scans every error's
lower-cased message for rate-limit / timeout / abuse substrings and its
upper-cased type against a fixed set. -/
def errors_are_retryable (errors : List GqlError) : Bool :=
  errors.any fun error =>
    let error_type := error.ty.toUpper
    let message := error.msg.toLower
    strContains message "rate limit" ||
    strContains message "secondary rate limit" ||
    strContains message "timeout" ||
    strContains message "abuse" ||
    (error_type == "RATE_LIMITED" || error_type == "SERVICE_UNAVAILABLE" ||
      error_type == "ABUSE_DETECTED")

/-- How `GitHubGraphQLClient.execute` can leave its retry loop:
a successful `data` value, a fatal non-retryable HTTP status (`RuntimeError`
with status and body), a fatal non-retryable GraphQL error list
(`RuntimeError` with the errors), or exhaustion of all attempts
(`RuntimeError` wrapping `last_error`, which may be `None`). -/
inductive ExecOutcome where
  | ok (dataStr : String)
  | httpFatal (status : Nat) (text : String)
  | gqlFatal (errors : List GqlError)
  | exhausted (last_error : Option String)
deriving DecidableEq, Repr

/-- The body of `execute`'s `for attempt in range(1, max_retries + 1)` loop.
`remaining` is the number of loop iterations left, `attempt` the 1-indexed
attempt number, `last_error` the running `last_error` variable.  Returns the
outcome together with the number of attempts actually made.  Sleeps
(backoff, header waits, rate-limit waits) do not affect any returned value
and are omitted. -/
def executeLoop (script : ℕ → HttpResult) :
    ℕ → ℕ → Option String → ExecOutcome × ℕ
  | 0, attempt, last_error => (.exhausted last_error, attempt - 1)
  | remaining + 1, attempt, last_error =>
    match script attempt with
    | .netErr m => executeLoop script remaining (attempt + 1) (some m)
    | .resp status _text json =>
      if RETRYABLE_HTTP_CODES.contains status then
        executeLoop script remaining (attempt + 1) last_error
      else if status ≥ 400 then (.httpFatal status _text, attempt)
      else
        match json with
        | .error m => executeLoop script remaining (attempt + 1) (some m)
        | .ok payload =>
          if payload.errors ≠ [] then
            if errors_are_retryable payload.errors then
              executeLoop script remaining (attempt + 1) last_error
            else (.gqlFatal payload.errors, attempt)
          else (.ok payload.dataStr, attempt)

/-- `GitHubGraphQLClient.execute`: run the attempt loop with `max_retries`
iterations, starting at attempt 1 with `last_error = None`. -/
def execute (script : ℕ → HttpResult) (max_retries : ℕ) : ExecOutcome × ℕ :=
  executeLoop script max_retries 1 none

/-- Classifies an attempt outcome as one `execute` retries past:
a network fault, a retryable HTTP status, a malformed body on a
non-fatal status, or a non-fatal status whose payload carries a
retryable non-empty error list. -/
def retryableHttpResult : HttpResult → Bool
  | .netErr _ => true
  | .resp status _ json =>
    if RETRYABLE_HTTP_CODES.contains status then true
    else if status ≥ 400 then false
    else
      match json with
      | .error _ => true
      | .ok payload => payload.errors ≠ [] && errors_are_retryable payload.errors

/-- How one attempt outcome updates the `last_error` variable: network
faults and JSON decode failures overwrite it; retryable HTTP statuses and
application-level errors leave it unchanged. -/
def updateLastError (r : HttpResult) (prev : Option String) : Option String :=
  match r with
  | .netErr m => some m
  | .resp status _ json =>
    if RETRYABLE_HTTP_CODES.contains status then prev
    else
      match json with
      | .error m => some m
      | .ok _ => prev

/-- The value of `last_error` after attempts `1..n` of `script` have been
retried past. -/
def lastErrorAfter (script : ℕ → HttpResult) : ℕ → Option String
  | 0 => none
  | n + 1 => updateLastError (script (n + 1)) (lastErrorAfter script n)

end GClient

namespace Crawler

open Partitioning

/-- The `Settings` fields `crawl_once` and `_ingest_partition` read.
(The remaining fields of config.py's `Settings` configure transport,
store and logging behaviour that the environment model abstracts.) -/
structure Settings where
  target_repo_count : ℕ
  page_size : ℕ
  min_stars : Int
  max_partition_results : Int
deriving DecidableEq, Repr

/-- `CrawlStats` (crawler.py). -/
structure CrawlStats where
  partitions_processed : ℕ
  partitions_split : ℕ
  partitions_skipped : ℕ
  repos_persisted : ℕ
  duplicate_repo_nodes : ℕ
  max_star_count : Int
deriving DecidableEq, Repr

/-- One repository node of a search response: its `id` (the empty string
models a missing or empty `id`, both falsy in `not node.get("id")`) and its
`stargazerCount` (absent in `_max_stars`' presence check). -/
structure RepoNode where
  node_id : String
  stargazerCount : Option Int
deriving DecidableEq, Repr

/-- The decoded `search` block of one response: the count fields, the page
info, and the node list (`None` entries model null nodes). -/
structure SearchBlock where
  repositoryCount : Option Int
  totalCount : Option Int
  hasNextPage : Bool
  endCursor : Option String
  nodes : List (Option RepoNode)
deriving DecidableEq, Repr

/-- The crawler's network environment: request index and requested page
size (`first`) to the decoded `search` block of the response. -/
abbrev Env := ℕ → ℕ → SearchBlock

/-- Which call site issued a request. -/
inductive ReqKind where
  | maxStars
  | probe
  | ingestPage
deriving DecidableEq, Repr

/-- A log entry for one issued request: its kind, its `first` (page size)
argument, and the run's persisted count at the moment of the request. -/
structure Request where
  kind : ReqKind
  first : ℕ
  persistedBefore : ℕ
deriving DecidableEq, Repr

/-- One entry of the `heapq` priority queue:
`(-star_max, star_width, date_width, counter, partition)` as pushed by
`_push_partition`. -/
structure QueueEntry where
  neg_star_max : Int
  star_width : Int
  date_width : Int
  counter : ℕ
  partition : SearchPartition
deriving DecidableEq, Repr

/-- `GitHubStarCrawler._push_partition`: append the entry
`(-star_max, star_width, date_width, next(counter), partition)` to the
queue (the heap is modelled as the list of its entries; ordering lives in
`heappop`). -/
def push_partition (queue : List QueueEntry) (counter : ℕ)
    (p : SearchPartition) : List QueueEntry :=
  let star_max := p.priority_key.1
  let star_width := p.stars_max - p.stars_min
  let date_width : Int :=
    match p.created_from, p.created_to with
    | some cf, some ct => ct - cf
    | _, _ => 0
  queue ++ [⟨-star_max, star_width, date_width, counter, p⟩]

/-- Strict lexicographic order on heap-entry keys, matching Python's tuple
comparison of `(-star_max, star_width, date_width, counter)`.  (With
pairwise-distinct counters two entries never compare equal, so the
`SearchPartition` payload is never compared, exactly as in the source.) -/
def entryKeyLt (a b : QueueEntry) : Bool :=
  decide (a.neg_star_max < b.neg_star_max ∨
    (a.neg_star_max = b.neg_star_max ∧ (a.star_width < b.star_width ∨
      (a.star_width = b.star_width ∧ (a.date_width < b.date_width ∨
        (a.date_width = b.date_width ∧ a.counter < b.counter))))))

/-- `heapq.heappop`: remove and return a key-least entry of the queue
(`none` on the empty queue). -/
def heappop : List QueueEntry → Option (QueueEntry × List QueueEntry)
  | [] => none
  | e :: es =>
    match heappop es with
    | none => some (e, [])
    | some (m, rest) =>
      if entryKeyLt m e then some (m, e :: rest) else some (e, es)

/-- `GitHubStarCrawler._split_partition`: try a star split; failing that,
attach the date window and date-split the windowed partition when the
window changed anything, else date-split the partition itself. -/
def split_partition (p : SearchPartition) (today : Int) :
    Option (SearchPartition × SearchPartition) :=
  match p.split_stars with
  | some star_split => some star_split
  | none =>
    let with_dates := p.with_date_window today EARLIEST_GITHUB_DATE
    if with_dates ≠ p then with_dates.split_dates
    else p.split_dates

/-- `GitHubStarCrawler._partition_count`: `repositoryCount`, else
`totalCount`, else a `RuntimeError`. -/
def partition_count (search : SearchBlock) : Except String Int :=
  match search.repositoryCount with
  | some count => .ok count
  | none =>
    match search.totalCount with
    | some count => .ok count
    | none => .error "Missing repository count in GraphQL response."

/-- `GitHubStarCrawler._max_stars`: the `stargazerCount` of the first
non-null node that has one, else a `RuntimeError`. -/
def max_stars_from_nodes : List (Option RepoNode) → Except String Int
  | [] => .error "Could not determine maximum stargazer count from GitHub."
  | none :: rest => max_stars_from_nodes rest
  | some node :: rest =>
    match node.stargazerCount with
    | some count => .ok count
    | none => max_stars_from_nodes rest

/-- The per-page node pass of `_ingest_partition`'s `for node in nodes`
loop: skip null or id-less nodes, count a duplicate for each id already in
the seen set, and collect a row (the node's id) for each fresh node while
inserting it into the seen set. -/
structure PageOutcome where
  rows : List String
  dups : ℕ
  seen : List String
deriving DecidableEq, Repr

/-- See `PageOutcome`. -/
def processNodes : List String → List (Option RepoNode) → PageOutcome
  | seen, [] => ⟨[], 0, seen⟩
  | seen, none :: rest => processNodes seen rest
  | seen, some node :: rest =>
    if node.node_id = "" then processNodes seen rest
    else if node.node_id ∈ seen then
      let o := processNodes seen rest
      ⟨o.rows, o.dups + 1, o.seen⟩
    else
      let o := processNodes (node.node_id :: seen) rest
      ⟨node.node_id :: o.rows, o.dups, o.seen⟩

/-- The sequential page handling of one crawl run: pages (possibly from
different partitions) are processed in order with the same seen set
threaded through, rows and duplicate counts accumulating. -/
def processPages (seen : List String) :
    List (List (Option RepoNode)) → PageOutcome
  | [] => ⟨[], 0, seen⟩
  | page :: rest =>
    let o := processNodes seen page
    let r := processPages o.seen rest
    ⟨o.rows ++ r.rows, o.dups + r.dups, r.seen⟩

/-- What `_ingest_partition` returns and threads back into the run. -/
structure IngestResult where
  persisted : ℕ
  duplicates : ℕ
  seen : List String
  rows : List String
  reqIdx : ℕ
  log : List Request
deriving DecidableEq, Repr

/-- The `while persisted < row_limit` loop of `_ingest_partition`.
`fuel` bounds the number of loop steps (running out of fuel stops the
loop, as an infinitely paging environment otherwise would not terminate);
`base_persisted` is the run-level persisted count when ingestion started,
recorded into the request log.  A fetch (the `search_block is None`
branch) is one loop step that re-enters with the fetched block.  The
cursor is only ever tested against `None` immediately after a page, so it
is not carried across iterations. -/
def ingestLoop (env : Env) (page_size_setting row_limit base_persisted : ℕ) :
    ℕ → ℕ → ℕ → ℕ → List String → List String → Option SearchBlock →
    List Request → IngestResult
  | 0, reqIdx, persisted, duplicates, seen, rows, _, log =>
    ⟨persisted, duplicates, seen, rows, reqIdx, log⟩
  | fuel + 1, reqIdx, persisted, duplicates, seen, rows, block?, log =>
    if persisted ≥ row_limit then
      ⟨persisted, duplicates, seen, rows, reqIdx, log⟩
    else
      match block? with
      | none =>
        let page_size := min page_size_setting (row_limit - persisted)
        let blk := env reqIdx page_size
        ingestLoop env page_size_setting row_limit base_persisted fuel
          (reqIdx + 1) persisted duplicates seen rows (some blk)
          (log ++ [⟨.ingestPage, page_size, base_persisted + persisted⟩])
      | some blk =>
        if blk.nodes = [] then
          ⟨persisted, duplicates, seen, rows, reqIdx, log⟩
        else
          let o := processNodes seen blk.nodes
          let persisted' := persisted + o.rows.length
          let duplicates' := duplicates + o.dups
          let rows' := rows ++ o.rows
          if !blk.hasNextPage then
            ⟨persisted', duplicates', o.seen, rows', reqIdx, log⟩
          else
            match blk.endCursor with
            | none => ⟨persisted', duplicates', o.seen, rows', reqIdx, log⟩
            | some _ =>
              ingestLoop env page_size_setting row_limit base_persisted fuel
                reqIdx persisted' duplicates' o.seen rows' none log

/-- The mutable state of `crawl_once`'s partition loop. -/
structure LoopState where
  queue : List QueueEntry
  counterNext : ℕ
  stats : CrawlStats
  seen : List String
  reqIdx : ℕ
  log : List Request
deriving DecidableEq, Repr

/-- A loop iteration either continues with a new state or raises
(`RuntimeError` from `_partition_count`) with the state at that moment. -/
inductive StepOut where
  | next (s : LoopState)
  | raised (msg : String) (s : LoopState)
deriving DecidableEq, Repr

/-- The state a step outcome carries. -/
def StepOut.state : StepOut → LoopState
  | .next s => s
  | .raised _ s => s

/-- The state the partition loop carries at its end, normal or raised. -/
def loopFinalState : Except (String × LoopState) LoopState → LoopState
  | .ok s => s
  | .error (_, s) => s

/-- The body of `crawl_once`'s `while` loop, after the pop: bump
`partitions_processed`, probe with `first = min(page_size, remaining)`,
read the count (raising if absent), then skip empty partitions, split
over-cap splittable ones (pushing both children), and otherwise ingest —
reusing the probe's block as the first page. -/
def crawlStep (env : Env) (st : Settings) (today : Int) (ingestFuel : ℕ)
    (s : LoopState) (partition : SearchPartition) : StepOut :=
  let stats1 := { s.stats with
    partitions_processed := s.stats.partitions_processed + 1 }
  let remaining := st.target_repo_count - stats1.repos_persisted
  let page_size := min st.page_size remaining
  let first_search_block := env s.reqIdx page_size
  let log1 := s.log ++ [⟨.probe, page_size, stats1.repos_persisted⟩]
  let reqIdx1 := s.reqIdx + 1
  match partition_count first_search_block with
  | .error m =>
    .raised m { s with stats := stats1, reqIdx := reqIdx1, log := log1 }
  | .ok cnt =>
    if cnt = 0 then
      .next { s with
        stats := { stats1 with
          partitions_skipped := stats1.partitions_skipped + 1 }
        reqIdx := reqIdx1
        log := log1 }
    else
      let ingest : StepOut :=
        let r := ingestLoop env st.page_size remaining stats1.repos_persisted
          ingestFuel reqIdx1 0 0 s.seen [] (some first_search_block) log1
        .next { s with
          stats := { stats1 with
            repos_persisted := stats1.repos_persisted + r.persisted
            duplicate_repo_nodes := stats1.duplicate_repo_nodes + r.duplicates }
          seen := r.seen
          reqIdx := r.reqIdx
          log := r.log }
      if cnt > st.max_partition_results then
        match split_partition partition today with
        | some (child1, child2) =>
          .next { s with
            queue := push_partition
              (push_partition s.queue s.counterNext child1)
              (s.counterNext + 1) child2
            counterNext := s.counterNext + 2
            stats := { stats1 with
              partitions_split := stats1.partitions_split + 1 }
            reqIdx := reqIdx1
            log := log1 }
        | none => ingest
      else ingest

/-- `crawl_once`'s `while queue and persisted < target` loop, with `fuel`
bounding the number of iterations (fuel exhaustion ends the loop early,
which every theorem below tolerates).  A raise aborts the loop carrying
the state at the raise. -/
def crawlLoop (env : Env) (st : Settings) (today : Int) (ingestFuel : ℕ) :
    ℕ → LoopState → Except (String × LoopState) LoopState
  | 0, s => .ok s
  | fuel + 1, s =>
    if s.queue ≠ [] ∧ s.stats.repos_persisted < st.target_repo_count then
      match heappop s.queue with
      | none => .ok s
      | some (e, rest) =>
        match crawlStep env st today ingestFuel { s with queue := rest }
            e.partition with
        | .next s' => crawlLoop env st today ingestFuel fuel s'
        | .raised m s' => .error (m, s')
    else .ok s

/-- One `finish_run` call: the arguments `crawl_once` passes to the store. -/
structure RunRecord where
  status : String
  repo_count : ℕ
  partition_count : ℕ
  split_partition_count : ℕ
  metadata : CrawlStats
  error_message : Option String
deriving DecidableEq, Repr

/-- What one `crawl_once` invocation does to the outside world: the
`finish_run` calls it makes (in order), its return value or the exception
it re-raises, and the requests it issued. -/
structure RunResult where
  finishes : List RunRecord
  outcome : Except String CrawlStats
  log : List Request
deriving Repr

/-- `GitHubStarCrawler.crawl_once`: start a run, determine the star
ceiling (request 0, `first = 1`), seed the queue with the full-range
partition, run the loop, and finalize the run record exactly as the
`try`/`except` does: `succeeded`/`partial` on normal exit, `failed` with
the error text (then re-raise) when the loop or `_max_stars` raises. -/
def crawl_once (env : Env) (st : Settings) (today : Int)
    (loopFuel ingestFuel : ℕ) : RunResult :=
  let log0 : List Request := [⟨.maxStars, 1, 0⟩]
  match max_stars_from_nodes (env 0 1).nodes with
  | .error m =>
    let stats : CrawlStats := ⟨0, 0, 0, 0, 0, 0⟩
    { finishes := [⟨"failed", 0, 0, 0, stats, some m⟩]
      outcome := .error m
      log := log0 }
  | .ok msv =>
    let stats0 : CrawlStats := ⟨0, 0, 0, 0, 0, msv⟩
    let initial : SearchPartition := ⟨st.min_stars, msv, none, none⟩
    let s0 : LoopState := ⟨push_partition [] 0 initial, 1, stats0, [], 1, log0⟩
    match crawlLoop env st today ingestFuel loopFuel s0 with
    | .ok s =>
      let status :=
        if s.stats.repos_persisted ≥ st.target_repo_count then "succeeded"
        else "partial"
      { finishes := [⟨status, s.stats.repos_persisted,
          s.stats.partitions_processed, s.stats.partitions_split, s.stats,
          none⟩]
        outcome := .ok s.stats
        log := s.log }
    | .error (m, s) =>
      { finishes := [⟨"failed", s.stats.repos_persisted,
          s.stats.partitions_processed, s.stats.partitions_split, s.stats,
          some m⟩]
        outcome := .error m
        log := s.log }

/-- The date-range width `_push_partition` and `priority_key` compute:
`(created_to - created_from).days` when both dates are present, else 0. -/
def dateWidthOf (p : SearchPartition) : Int :=
  match p.created_from, p.created_to with
  | some cf, some ct => ct - cf
  | _, _ => 0

/-- A queue entry whose key fields are the ones `_push_partition` computes
from its partition. -/
def wellFormedEntry (e : QueueEntry) : Prop :=
  e.neg_star_max = -e.partition.stars_max ∧
  e.star_width = e.partition.stars_max - e.partition.stars_min ∧
  e.date_width = dateWidthOf e.partition

instance (e : QueueEntry) : Decidable (wellFormedEntry e) := by
  unfold wellFormedEntry
  infer_instance

/-- The spec's pop-priority order, written from the spec's words (for the
refinement claim about the queue): highest `scoreMax` first, ties broken by
narrower score width, then narrower date width, then earliest insertion. -/
def specPopOrder (a b : QueueEntry) : Prop :=
  a.partition.stars_max > b.partition.stars_max ∨
  (a.partition.stars_max = b.partition.stars_max ∧
    (a.partition.stars_max - a.partition.stars_min <
        b.partition.stars_max - b.partition.stars_min ∨
      (a.partition.stars_max - a.partition.stars_min =
          b.partition.stars_max - b.partition.stars_min ∧
        (dateWidthOf a.partition < dateWidthOf b.partition ∨
          (dateWidthOf a.partition = dateWidthOf b.partition ∧
            a.counter < b.counter)))))

/-- The id a node contributes during ingestion: `none` for null nodes and
nodes with a missing or empty id. -/
def validId : Option RepoNode → Option String
  | none => none
  | some node => if node.node_id = "" then none else some node.node_id

/-- The ids of one page's ingestible nodes, in order. -/
def pageIds (page : List (Option RepoNode)) : List String :=
  page.filterMap validId

/-- The ids of every ingestible node of a page sequence, in order. -/
def allIds (pages : List (List (Option RepoNode))) : List String :=
  (pages.map pageIds).flatten

end Crawler

namespace Partitioning

/-- C1: for every partition with `stars_min < stars_max`, `split_stars`
returns `(high, low)` with `mid = (stars_min + stars_max) / 2` (floor),
`high = [mid+1, stars_max]`, `low = [stars_min, mid]`, whose star ranges
are disjoint and union to exactly `[stars_min, stars_max]`; for every
partition with `stars_min = stars_max` it returns `none`. -/
theorem split_stars_spec (p : SearchPartition) :
    (p.stars_min < p.stars_max →
      ∃ high low, p.split_stars = some (high, low) ∧
        high.stars_min = (p.stars_min + p.stars_max) / 2 + 1 ∧
        high.stars_max = p.stars_max ∧
        low.stars_min = p.stars_min ∧
        low.stars_max = (p.stars_min + p.stars_max) / 2 ∧
        (∀ x : Int, ¬(low.stars_min ≤ x ∧ x ≤ low.stars_max ∧
          high.stars_min ≤ x ∧ x ≤ high.stars_max)) ∧
        (∀ x : Int, (p.stars_min ≤ x ∧ x ≤ p.stars_max) ↔
          ((low.stars_min ≤ x ∧ x ≤ low.stars_max) ∨
            (high.stars_min ≤ x ∧ x ≤ high.stars_max)))) ∧
    (p.stars_min = p.stars_max → p.split_stars = none) := by
  constructor
  · intro hlt
    have hcond : ¬ p.stars_min ≥ p.stars_max := by omega
    refine ⟨⟨(p.stars_min + p.stars_max) / 2 + 1, p.stars_max,
        p.created_from, p.created_to⟩,
      ⟨p.stars_min, (p.stars_min + p.stars_max) / 2,
        p.created_from, p.created_to⟩,
      ?_, rfl, rfl, rfl, rfl, ?_, ?_⟩
    · simp only [SearchPartition.split_stars, hcond, if_false]
    · intro x
      dsimp only
      omega
    · intro x
      dsimp only
      omega
  · intro heq
    have hcond : p.stars_min ≥ p.stars_max := by omega
    simp only [SearchPartition.split_stars, hcond, if_true]

/-- Witness for C1 at `stars = [0, 10]`. -/
theorem split_stars_spec_witness :
    ∃ high low,
      (⟨0, 10, none, none⟩ : SearchPartition).split_stars =
        some (high, low) ∧
      high.stars_min = ((0 : Int) + 10) / 2 + 1 ∧
      high.stars_max = 10 ∧
      low.stars_min = 0 ∧
      low.stars_max = ((0 : Int) + 10) / 2 ∧
      (∀ x : Int, ¬(low.stars_min ≤ x ∧ x ≤ low.stars_max ∧
        high.stars_min ≤ x ∧ x ≤ high.stars_max)) ∧
      (∀ x : Int, ((0 : Int) ≤ x ∧ x ≤ 10) ↔
        ((low.stars_min ≤ x ∧ x ≤ low.stars_max) ∨
          (high.stars_min ≤ x ∧ x ≤ high.stars_max))) :=
  (split_stars_spec ⟨0, 10, none, none⟩).1 (by decide)

end Partitioning

namespace Partitioning

/-- C2: for every date-bearing partition satisfying the data-model
invariant `created_from ≤ created_to`, if `created_from < created_to` then
`split_dates` returns `(first, second)` with
`mid = created_from + (created_to - created_from) / 2`,
`first = [created_from, mid]`, `second = [mid+1, created_to]`, whose date
ranges are disjoint, contiguous and union to exactly
`[created_from, created_to]`; and it returns `none` exactly when the dates
are absent or `created_from = created_to`. -/
theorem split_dates_spec (p : SearchPartition)
    (hinv : ∀ cf ct, p.created_from = some cf → p.created_to = some ct →
      cf ≤ ct) :
    (∀ cf ct, p.created_from = some cf → p.created_to = some ct → cf < ct →
      ∃ first second, p.split_dates = some (first, second) ∧
        first.created_from = some cf ∧
        first.created_to = some (cf + (ct - cf) / 2) ∧
        second.created_from = some (cf + (ct - cf) / 2 + 1) ∧
        second.created_to = some ct ∧
        (∀ d : Int, ¬((cf ≤ d ∧ d ≤ cf + (ct - cf) / 2) ∧
          (cf + (ct - cf) / 2 + 1 ≤ d ∧ d ≤ ct))) ∧
        (∀ d : Int, (cf ≤ d ∧ d ≤ ct) ↔
          ((cf ≤ d ∧ d ≤ cf + (ct - cf) / 2) ∨
            (cf + (ct - cf) / 2 + 1 ≤ d ∧ d ≤ ct)))) ∧
    (p.split_dates = none ↔
      (p.created_from = none ∨ p.created_to = none ∨
        p.created_from = p.created_to)) := by
  constructor
  · intro cf ct hcf hct hlt
    have hcond : ¬ cf ≥ ct := by omega
    refine ⟨⟨p.stars_min, p.stars_max, some cf, some (cf + (ct - cf) / 2)⟩,
      ⟨p.stars_min, p.stars_max, some (cf + (ct - cf) / 2 + 1), some ct⟩,
      ?_, rfl, rfl, rfl, rfl, ?_, ?_⟩
    · simp only [SearchPartition.split_dates, hcf, hct, hcond, if_false]
    · intro d
      omega
    · intro d
      omega
  · constructor
    · intro hnone
      by_contra hc
      push_neg at hc
      obtain ⟨h1, h2, h3⟩ := hc
      obtain ⟨cf, hcf⟩ := Option.ne_none_iff_exists'.mp h1
      obtain ⟨ct, hct⟩ := Option.ne_none_iff_exists'.mp h2
      have hle := hinv cf ct hcf hct
      have hne : cf ≠ ct := by
        intro h
        apply h3
        rw [hcf, hct, h]
      have hcond : ¬ cf ≥ ct := by omega
      rw [SearchPartition.split_dates, hcf, hct] at hnone
      simp only [hcond, if_false] at hnone
      exact Option.noConfusion hnone
    · intro h
      rcases h with h | h | h
      · rw [SearchPartition.split_dates, h]
      · rw [SearchPartition.split_dates, h]
        match p.created_from with
        | none => rfl
        | some _ => rfl
      · rw [SearchPartition.split_dates]
        match hfrom : p.created_from, hto : p.created_to with
        | none, _ => rfl
        | some _, none => rfl
        | some cf, some ct =>
          have : cf = ct := by
            rw [hfrom, hto] at h
            exact Option.some_injective _ h
          simp only [this, ge_iff_le, le_refl, if_true]

/-- Witness for C2 at `created = [100, 109]` (both parts applied). -/
theorem split_dates_spec_witness :
    (∃ first second,
      (⟨0, 5, some 100, some 109⟩ : SearchPartition).split_dates =
        some (first, second) ∧
      first.created_from = some 100 ∧
      first.created_to = some ((100 : Int) + (109 - 100) / 2) ∧
      second.created_from = some ((100 : Int) + (109 - 100) / 2 + 1) ∧
      second.created_to = some 109 ∧
      (∀ d : Int, ¬((100 ≤ d ∧ d ≤ 100 + (109 - 100) / 2) ∧
        (100 + (109 - 100) / 2 + 1 ≤ d ∧ d ≤ 109))) ∧
      (∀ d : Int, ((100 : Int) ≤ d ∧ d ≤ 109) ↔
        ((100 ≤ d ∧ d ≤ 100 + (109 - 100) / 2) ∨
          (100 + (109 - 100) / 2 + 1 ≤ d ∧ d ≤ 109)))) ∧
    ((⟨0, 5, some 100, some 100⟩ : SearchPartition).split_dates = none) :=
  ⟨(split_dates_spec ⟨0, 5, some 100, some 109⟩
      (by intro cf ct hcf hct; simp at hcf hct; omega)).1
      100 109 rfl rfl (by decide),
    (split_dates_spec ⟨0, 5, some 100, some 100⟩
      (by intro cf ct hcf hct; simp at hcf hct; omega)).2.mpr
      (Or.inr (Or.inr rfl))⟩

end Partitioning

namespace GClient

/-- C9 counterexample: with a base backoff of 0.5 s and jitter draws that
stay inside `[0.2, 0.8]` (0.8 on attempt 1, 0.2 on attempt 2), the delay
computed for attempt 2 is strictly smaller than the delay computed for
attempt 1, and neither delay was clipped by the cap — so the delay is not
non-decreasing in the attempt number. -/
theorem compute_backoff_not_monotone :
    ((1 : ℚ)/5 ≤ 4/5 ∧ (4 : ℚ)/5 ≤ 4/5 ∧ (1 : ℚ)/5 ≤ 1/5) ∧
    compute_backoff (1/2) 1 (4/5) < MAX_SLEEP_SECONDS ∧
    compute_backoff (1/2) 2 (1/5) < compute_backoff (1/2) 1 (4/5) := by
  have h1 : compute_backoff (1/2) 1 (4/5) = 13/10 := by
    rw [compute_backoff, min_eq_left (by norm_num [MAX_SLEEP_SECONDS])]
    norm_num
  have h2 : compute_backoff (1/2) 2 (1/5) = 6/5 := by
    rw [compute_backoff, min_eq_left (by norm_num [MAX_SLEEP_SECONDS])]
    norm_num
  refine ⟨⟨by norm_num, by norm_num, by norm_num⟩, ?_, ?_⟩
  · rw [h1, MAX_SLEEP_SECONDS]
    norm_num
  · rw [h1, h2]
    norm_num

/-- C9 amended: the delay equals `min(base * 2^(attempt-1) + jitter,
maxSleep)`; it never exceeds the cap (a fortiori the cap plus the maximal
jitter); and between consecutive attempts it is non-decreasing for all
jitter draws in `[0.2, 0.8]` provided the base backoff is at least the
width `0.6` of the jitter range (the counterexample shows this proviso is
necessary). -/
theorem compute_backoff_spec (base j j' : ℚ) (attempt : ℕ)
    (hatt : 1 ≤ attempt) (_hj1 : 1/5 ≤ j) (hj2 : j ≤ 4/5)
    (hj1' : 1/5 ≤ j') (_hj2' : j' ≤ 4/5) (hbase : 3/5 ≤ base) :
    compute_backoff base attempt j =
      min (base * 2 ^ (attempt - 1) + j) MAX_SLEEP_SECONDS ∧
    compute_backoff base attempt j ≤ MAX_SLEEP_SECONDS ∧
    compute_backoff base attempt j ≤ compute_backoff base (attempt + 1) j' := by
  refine ⟨rfl, min_le_right _ _, ?_⟩
  obtain ⟨k, rfl⟩ : ∃ k, attempt = k + 1 := ⟨attempt - 1, by omega⟩
  have hk : (1 : ℚ) ≤ 2 ^ k := one_le_pow₀ (by norm_num)
  have hb : base ≤ base * 2 ^ k :=
    le_mul_of_one_le_right (by linarith) hk
  apply min_le_min _ le_rfl
  have h2 : (2 : ℚ) ^ (k + 1 + 1 - 1) = 2 ^ k * 2 := by
    rw [Nat.add_sub_cancel, pow_succ]
  have h1 : (2 : ℚ) ^ (k + 1 - 1) = 2 ^ k := by
    rw [Nat.add_sub_cancel]
  rw [h1, h2]
  nlinarith

/-- Witness for C9 amended at `base = 1`, `attempt = 1`,
`jitter = jitter' = 1/2`. -/
theorem compute_backoff_spec_witness :
    compute_backoff 1 1 (1/2) =
      min ((1 : ℚ) * 2 ^ (1 - 1) + 1/2) MAX_SLEEP_SECONDS ∧
    compute_backoff 1 1 (1/2) ≤ MAX_SLEEP_SECONDS ∧
    compute_backoff 1 1 (1/2) ≤ compute_backoff 1 (1 + 1) (1/2) :=
  compute_backoff_spec 1 (1/2) (1/2) 1 (by norm_num) (by norm_num)
    (by norm_num) (by norm_num) (by norm_num) (by norm_num)

end GClient

namespace GClient

/-- The attempt counter returned by `executeLoop` stays within the range
the loop was given. -/
theorem executeLoop_attempts_le (script : ℕ → HttpResult) :
    ∀ remaining attempt last_error, 1 ≤ attempt →
      (executeLoop script remaining attempt last_error).2 ≤
        attempt + remaining - 1 := by
  intro remaining
  induction remaining with
  | zero =>
    intro attempt last_error h1
    simp only [executeLoop]
    omega
  | succ n ih =>
    intro attempt last_error h1
    rw [executeLoop]
    cases hs : script attempt with
    | netErr m =>
      dsimp only
      have := ih (attempt + 1) (some m) (by omega)
      omega
    | resp status text json =>
      dsimp only
      by_cases hret : RETRYABLE_HTTP_CODES.contains status = true
      · rw [if_pos hret]
        have := ih (attempt + 1) last_error (by omega)
        omega
      · rw [if_neg hret]
        by_cases h4 : status ≥ 400
        · rw [if_pos h4]
          omega
        · rw [if_neg h4]
          match json with
          | .error m =>
            dsimp only
            have := ih (attempt + 1) (some m) (by omega)
            omega
          | .ok payload =>
            dsimp only
            by_cases herr : payload.errors = []
            · rw [if_neg (by simp [herr])]
              omega
            · rw [if_pos herr]
              by_cases hretry : errors_are_retryable payload.errors = true
              · rw [if_pos hretry]
                have := ih (attempt + 1) last_error (by omega)
                omega
              · rw [if_neg hretry]
                omega
end GClient

namespace GClient

/-- When every attempt in range is one the loop retries past, the loop
exhausts all its iterations carrying exactly the `last_error` updates of
`updateLastError`. -/
theorem executeLoop_all_retryable (script : ℕ → HttpResult) :
    ∀ remaining attempt, 1 ≤ attempt →
      (∀ i, attempt ≤ i → i < attempt + remaining →
        retryableHttpResult (script i) = true) →
      executeLoop script remaining attempt
          (lastErrorAfter script (attempt - 1)) =
        (.exhausted (lastErrorAfter script (attempt - 1 + remaining)),
          attempt + remaining - 1) := by
  intro remaining
  induction remaining with
  | zero =>
    intro attempt h1 _hall
    simp only [executeLoop, Nat.add_zero]
  | succ n ih =>
    intro attempt h1 hall
    have hretry : retryableHttpResult (script attempt) = true :=
      hall attempt le_rfl (by omega)
    obtain ⟨k, hk⟩ : ∃ k, attempt = k + 1 := ⟨attempt - 1, by omega⟩
    have hunfold : lastErrorAfter script attempt =
        updateLastError (script attempt) (lastErrorAfter script (attempt - 1)) := by
      rw [hk]
      simp only [lastErrorAfter, Nat.add_sub_cancel]
    have hnext : ∀ e', e' = lastErrorAfter script attempt →
        executeLoop script n (attempt + 1) e' =
          (.exhausted (lastErrorAfter script (attempt - 1 + (n + 1))),
            attempt + (n + 1) - 1) := by
      intro e' he'
      have := ih (attempt + 1) (by omega)
        (fun i hi1 hi2 => hall i (by omega) (by omega))
      rw [Nat.add_sub_cancel] at this
      have e1 : attempt - 1 + (n + 1) = attempt + n := by omega
      have e2 : attempt + (n + 1) - 1 = attempt + 1 + n - 1 := by omega
      rw [e1, e2, he']
      exact this
    rw [executeLoop]
    cases hs : script attempt with
    | netErr m =>
      dsimp only
      apply hnext
      rw [hunfold, hs]
      rfl
    | resp status text json =>
      dsimp only
      rw [hs] at hretry
      simp only [retryableHttpResult] at hretry
      by_cases hret : RETRYABLE_HTTP_CODES.contains status = true
      · rw [if_pos hret]
        apply hnext
        rw [hunfold, hs]
        simp only [updateLastError]
        rw [if_pos hret]
      · rw [if_neg hret]
        rw [if_neg hret] at hretry
        by_cases h4 : status ≥ 400
        · rw [if_pos h4] at hretry
          exact absurd hretry (by simp)
        · rw [if_neg h4]
          rw [if_neg h4] at hretry
          match json with
          | .error m =>
            dsimp only
            apply hnext
            rw [hunfold, hs]
            simp only [updateLastError]
            rw [if_neg hret]
          | .ok payload =>
            dsimp only
            dsimp only at hretry
            by_cases herr : payload.errors = []
            · rw [if_neg (by simp [herr])]
              simp [herr] at hretry
            · rw [if_pos herr]
              by_cases hretry2 : errors_are_retryable payload.errors = true
              · rw [if_pos hretry2]
                apply hnext
                rw [hunfold, hs]
                simp only [updateLastError]
                rw [if_neg hret]
              · simp [herr, hretry2] at hretry

/-- C7 amended: every call of `execute` makes at most `max_retries`
attempts, and when every attempt's outcome is retryable (network fault,
retryable HTTP status, malformed body, or retryable application error) it
fails with an error wrapping `last_error` — which is the last *network or
body-decoding* failure among the attempts, and `None` when every failure
was an HTTP-status-level or application-level one (retryable HTTP statuses
and retryable GraphQL error lists never update `last_error`). -/
theorem execute_retry_spec (script : ℕ → HttpResult) (max_retries : ℕ) :
    (execute script max_retries).2 ≤ max_retries ∧
    ((∀ i, 1 ≤ i → i ≤ max_retries → retryableHttpResult (script i) = true) →
      execute script max_retries =
        (.exhausted (lastErrorAfter script max_retries), max_retries)) := by
  constructor
  · have := executeLoop_attempts_le script max_retries 1 none le_rfl
    simpa [execute] using this
  · intro hall
    have h0 : (none : Option String) = lastErrorAfter script (1 - 1) := rfl
    rw [execute, h0]
    rw [executeLoop_all_retryable script max_retries 1 le_rfl
      (fun i hi1 hi2 => hall i hi1 (by omega))]
    have e1 : 1 - 1 + max_retries = max_retries := by omega
    have e2 : 1 + max_retries - 1 = max_retries := by omega
    rw [e1, e2]

/-- Witness for C7 amended: a script whose every attempt is a network
fault, under `max_retries = 2`. -/
theorem execute_retry_spec_witness :
    (execute (fun _ => .netErr "boom") 2).2 ≤ 2 ∧
    execute (fun _ => .netErr "boom") 2 =
      (.exhausted (lastErrorAfter (fun _ => .netErr "boom") 2), 2) :=
  ⟨(execute_retry_spec (fun _ => .netErr "boom") 2).1,
    (execute_retry_spec (fun _ => .netErr "boom") 2).2 (fun _ _ _ => rfl)⟩

/-- C7 counterexample: two attempts, both ending in the retryable HTTP
status 503.  `execute` exhausts its attempts but surfaces
`exhausted none`: the error does not wrap the last observed failure (the
503 response) — it wraps nothing at all, because retryable HTTP statuses
never set `last_error`. -/
theorem execute_wrap_counterexample :
    RETRYABLE_HTTP_CODES.contains 503 = true ∧
    execute (fun _ => .resp 503 "service unavailable" (.error "unparsed")) 2 =
      (.exhausted none, 2) ∧
    ∀ m : String,
      (execute (fun _ => .resp 503 "service unavailable" (.error "unparsed"))
          2).1 ≠ .exhausted (some m) := by
  refine ⟨rfl, rfl, ?_⟩
  intro m h
  exact Option.noConfusion (ExecOutcome.exhausted.inj h)

end GClient

namespace Crawler

/-- Tuple comparison is asymmetric. -/
theorem entryKeyLt_asymm (a b : QueueEntry) (h : entryKeyLt a b = true) :
    entryKeyLt b a = false := by
  simp only [entryKeyLt, decide_eq_true_eq] at h
  simp only [entryKeyLt, decide_eq_false_iff_not]
  omega

/-- Non-strict tuple comparison is transitive. -/
theorem entryKeyLt_neg_trans (a b c : QueueEntry)
    (hab : entryKeyLt a b = false) (hbc : entryKeyLt b c = false) :
    entryKeyLt a c = false := by
  simp only [entryKeyLt, decide_eq_false_iff_not] at hab hbc
  simp only [entryKeyLt, decide_eq_false_iff_not]
  omega

/-- Entries with distinct counters always compare strictly one way. -/
theorem entryKeyLt_total (a b : QueueEntry) (h : a.counter ≠ b.counter) :
    entryKeyLt a b = true ∨ entryKeyLt b a = true := by
  simp only [entryKeyLt, decide_eq_true_eq]
  omega

/-- `heappop` returns something on every non-empty queue. -/
theorem heappop_isSome (q : List QueueEntry) (hq : q ≠ []) :
    (heappop q).isSome := by
  cases q with
  | nil => exact absurd rfl hq
  | cons h t =>
    rw [heappop]
    cases heappop t with
    | none => rfl
    | some mr =>
      cases mr with
      | mk m rest =>
        dsimp only
        split <;> rfl

/-- What `heappop` pops is an element of the queue no other element of the
queue strictly precedes in tuple order. -/
theorem heappop_min : ∀ (q : List QueueEntry) (e : QueueEntry)
    (rest : List QueueEntry), heappop q = some (e, rest) →
    e ∈ q ∧ ∀ x ∈ q, entryKeyLt x e = false ∨ x = e := by
  intro q
  induction q with
  | nil =>
    intro e rest hpop
    exact Option.noConfusion hpop
  | cons h t ih =>
    intro e rest hpop
    rw [heappop] at hpop
    cases ht : heappop t with
    | none =>
      have ht' : t = [] := by
        cases t with
        | nil => rfl
        | cons y ys =>
          have := heappop_isSome (y :: ys) (by simp)
          rw [ht] at this
          exact absurd this (by simp)
      rw [ht] at hpop
      dsimp only at hpop
      obtain ⟨he, -⟩ := Prod.mk.injEq .. ▸ Option.some.inj hpop
      subst he
      subst ht'
      refine ⟨List.mem_singleton_self _, ?_⟩
      intro x hx
      right
      simpa using hx
    | some mr =>
      cases mr with
      | mk m rest' =>
        rw [ht] at hpop
        dsimp only at hpop
        obtain ⟨hm, hall⟩ := ih m rest' ht
        by_cases hlt : entryKeyLt m h = true
        · rw [if_pos hlt] at hpop
          obtain ⟨he, -⟩ := Prod.mk.injEq .. ▸ Option.some.inj hpop
          subst he
          refine ⟨List.mem_cons_of_mem _ hm, ?_⟩
          intro x hx
          rcases List.mem_cons.mp hx with hxh | hxt
          · subst hxh
            exact Or.inl (entryKeyLt_asymm _ _ hlt)
          · exact hall x hxt
        · rw [if_neg hlt] at hpop
          obtain ⟨he, -⟩ := Prod.mk.injEq .. ▸ Option.some.inj hpop
          subst he
          refine ⟨List.mem_cons_self _ _, ?_⟩
          intro x hx
          rcases List.mem_cons.mp hx with hxh | hxt
          · exact Or.inr hxh
          · rcases hall x hxt with hxm | hxm
            · have hmh : entryKeyLt m h = false :=
                Bool.eq_false_iff.mpr hlt
              exact Or.inl (entryKeyLt_neg_trans _ _ _ hxm hmh)
            · subst hxm
              exact Or.inl (Bool.eq_false_iff.mpr hlt)

/-- Strict tuple order on well-formed entries coincides with the spec's
pop-priority order. -/
theorem entryKeyLt_iff_specPopOrder (a b : QueueEntry)
    (ha : wellFormedEntry a) (hb : wellFormedEntry b)
    (h : entryKeyLt a b = true) : specPopOrder a b := by
  obtain ⟨ha1, ha2, ha3⟩ := ha
  obtain ⟨hb1, hb2, hb3⟩ := hb
  simp only [entryKeyLt, decide_eq_true_eq] at h
  rw [ha1, hb1, ha2, hb2, ha3, hb3] at h
  unfold specPopOrder
  omega

end Crawler

namespace Crawler

/-- C6: on any queue of entries built by `_push_partition` (well-formed
keys) with pairwise-distinct insertion counters, the popped entry strictly
precedes every other queued entry in the spec's priority order: higher
`stars_max` first, ties by narrower star width, then narrower date width,
then earlier insertion.  The popped entry is therefore the unique minimum,
so the pop order is a deterministic total order. -/
theorem heappop_priority_spec (q : List QueueEntry) (e : QueueEntry)
    (rest : List QueueEntry)
    (hwf : ∀ x ∈ q, wellFormedEntry x)
    (hdist : q.Pairwise (fun a b => a.counter ≠ b.counter))
    (hpop : heappop q = some (e, rest)) :
    e ∈ q ∧ ∀ x ∈ q, x ≠ e → specPopOrder e x := by
  obtain ⟨hmem, hmin⟩ := heappop_min q e rest hpop
  refine ⟨hmem, ?_⟩
  intro x hx hne
  have hc : e.counter ≠ x.counter := by
    have hsym : Symmetric (fun a b : QueueEntry => a.counter ≠ b.counter) :=
      fun a b h => h.symm
    exact hdist.forall hsym hmem hx (fun h => hne (h ▸ rfl))
  have hxe : entryKeyLt x e = false := by
    rcases hmin x hx with h | h
    · exact h
    · exact absurd h hne
  rcases entryKeyLt_total e x hc with h1 | h1
  · exact entryKeyLt_iff_specPopOrder e x (hwf e hmem) (hwf x hx) h1
  · rw [hxe] at h1
    exact absurd h1 (by simp)

/-- Witness for C6: a two-entry queue where the entry with the higher
`stars_max` (counter 1) is popped ahead of the earlier-inserted one. -/
theorem heappop_priority_spec_witness :
    (⟨-9, 9, 0, 1, ⟨0, 9, none, none⟩⟩ : QueueEntry) ∈
      ([⟨-5, 5, 0, 0, ⟨0, 5, none, none⟩⟩,
        ⟨-9, 9, 0, 1, ⟨0, 9, none, none⟩⟩] : List QueueEntry) ∧
    ∀ x ∈ ([⟨-5, 5, 0, 0, ⟨0, 5, none, none⟩⟩,
        ⟨-9, 9, 0, 1, ⟨0, 9, none, none⟩⟩] : List QueueEntry),
      x ≠ ⟨-9, 9, 0, 1, ⟨0, 9, none, none⟩⟩ →
      specPopOrder ⟨-9, 9, 0, 1, ⟨0, 9, none, none⟩⟩ x :=
  heappop_priority_spec
    [⟨-5, 5, 0, 0, ⟨0, 5, none, none⟩⟩, ⟨-9, 9, 0, 1, ⟨0, 9, none, none⟩⟩]
    ⟨-9, 9, 0, 1, ⟨0, 9, none, none⟩⟩
    [⟨-5, 5, 0, 0, ⟨0, 5, none, none⟩⟩]
    (by decide) (by decide) (by decide)

end Crawler

namespace Crawler

/-- Skipped nodes contribute nothing to `pageIds`. -/
theorem pageIds_cons_none (rest : List (Option RepoNode)) :
    pageIds (none :: rest) = pageIds rest := by
  simp [pageIds, validId, List.filterMap_cons]

/-- An id-less node contributes nothing to `pageIds`. -/
theorem pageIds_cons_some_blank (node : RepoNode) (rest : List (Option RepoNode))
    (h : node.node_id = "") : pageIds (some node :: rest) = pageIds rest := by
  simp [pageIds, validId, List.filterMap_cons, h]

/-- A node with an id contributes it to `pageIds`. -/
theorem pageIds_cons_some (node : RepoNode) (rest : List (Option RepoNode))
    (h : ¬ node.node_id = "") :
    pageIds (some node :: rest) = node.node_id :: pageIds rest := by
  simp [pageIds, validId, List.filterMap_cons, h]

/-- Every valid node occurrence of a page becomes exactly one row or one
duplicate increment. -/
theorem processNodes_len (nodes : List (Option RepoNode)) :
    ∀ seen, (processNodes seen nodes).rows.length +
      (processNodes seen nodes).dups = (pageIds nodes).length := by
  induction nodes with
  | nil =>
    intro seen
    simp [processNodes, pageIds]
  | cons head rest ih =>
    intro seen
    match head with
    | none =>
      rw [processNodes, pageIds_cons_none]
      exact ih seen
    | some node =>
      by_cases hid : node.node_id = ""
      · rw [processNodes, if_pos hid, pageIds_cons_some_blank node rest hid]
        exact ih seen
      · by_cases hseen : node.node_id ∈ seen
        · rw [processNodes, if_neg hid, if_pos hseen,
            pageIds_cons_some node rest hid]
          have := ih seen
          dsimp only
          simp only [List.length_cons]
          omega
        · rw [processNodes, if_neg hid, if_neg hseen,
            pageIds_cons_some node rest hid]
          have := ih (node.node_id :: seen)
          dsimp only
          simp only [List.length_cons]
          omega

/-- Membership in the seen set after a page: the old seen set plus the
page's valid ids. -/
theorem processNodes_seen_mem (nodes : List (Option RepoNode)) :
    ∀ seen a, (a ∈ (processNodes seen nodes).seen ↔
      a ∈ seen ∨ a ∈ pageIds nodes) := by
  induction nodes with
  | nil =>
    intro seen a
    simp [processNodes, pageIds]
  | cons head rest ih =>
    intro seen a
    match head with
    | none =>
      rw [processNodes, pageIds_cons_none]
      exact ih seen a
    | some node =>
      by_cases hid : node.node_id = ""
      · rw [processNodes, if_pos hid, pageIds_cons_some_blank node rest hid]
        exact ih seen a
      · by_cases hseen : node.node_id ∈ seen
        · rw [processNodes, if_neg hid, if_pos hseen,
            pageIds_cons_some node rest hid]
          dsimp only
          rw [ih seen a]
          constructor
          · rintro (h | h)
            · exact Or.inl h
            · exact Or.inr (List.mem_cons_of_mem _ h)
          · rintro (h | h)
            · exact Or.inl h
            · rcases List.mem_cons.mp h with h | h
              · exact Or.inl (h ▸ hseen)
              · exact Or.inr h
        · rw [processNodes, if_neg hid, if_neg hseen,
            pageIds_cons_some node rest hid]
          dsimp only
          rw [ih (node.node_id :: seen) a]
          simp only [List.mem_cons]
          tauto

/-- C4's core: a valid id becomes a row exactly once — on its first
occurrence across the pages of the run, and only if it was not already in
the seen set. -/
theorem processNodes_count (nodes : List (Option RepoNode)) :
    ∀ seen a, (processNodes seen nodes).rows.count a =
      if a ∈ pageIds nodes ∧ a ∉ seen then 1 else 0 := by
  induction nodes with
  | nil =>
    intro seen a
    simp [processNodes, pageIds]
  | cons head rest ih =>
    intro seen a
    match head with
    | none =>
      rw [processNodes, pageIds_cons_none]
      exact ih seen a
    | some node =>
      by_cases hid : node.node_id = ""
      · rw [processNodes, if_pos hid, pageIds_cons_some_blank node rest hid]
        exact ih seen a
      · by_cases hseen : node.node_id ∈ seen
        · rw [processNodes, if_neg hid, if_pos hseen,
            pageIds_cons_some node rest hid]
          dsimp only
          rw [ih seen a]
          by_cases ha : a = node.node_id
          · subst ha
            simp [hseen]
          · simp only [List.mem_cons]
            congr 1
            simp [ha, eq_comm]
        · rw [processNodes, if_neg hid, if_neg hseen,
            pageIds_cons_some node rest hid]
          dsimp only
          by_cases ha : a = node.node_id
          · subst ha
            rw [List.count_cons, ih (node.node_id :: seen) node.node_id]
            simp [hseen]
          · rw [List.count_cons, ih (node.node_id :: seen) a]
            have hne2 : (node.node_id == a) = false :=
              beq_eq_false_iff_ne.mpr (fun h => ha h.symm)
            simp only [List.mem_cons, hne2, Bool.false_eq_true, if_false,
              Nat.add_zero]
            by_cases hin : a ∈ pageIds rest
            · by_cases hs2 : a ∈ seen
              · simp [hin, hs2, ha]
              · simp [hin, hs2, ha]
            · simp [hin, ha]

end Crawler

namespace Crawler

/-- Seen-set membership after a page sequence. -/
theorem processPages_seen_mem (pages : List (List (Option RepoNode))) :
    ∀ seen a, (a ∈ (processPages seen pages).seen ↔
      a ∈ seen ∨ a ∈ allIds pages) := by
  induction pages with
  | nil =>
    intro seen a
    simp [processPages, allIds]
  | cons page rest ih =>
    intro seen a
    rw [processPages]
    dsimp only
    rw [ih _ a, processNodes_seen_mem page seen a]
    simp only [allIds, List.map_cons, List.flatten_cons, List.mem_append]
    tauto

/-- C4: across any sequence of ingested pages of one run (the same seen
set threaded through all of them, as `_ingest_partition` does across pages
and `crawl_once` does across partitions), every entity id is persisted at
most once; it is persisted exactly once iff it occurs among the pages'
valid nodes and was not already seen; and rows plus duplicate increments
account for every valid node occurrence — so each occurrence after the
first increments only the duplicate counter. -/
theorem processPages_dedup_spec (pages : List (List (Option RepoNode)))
    (seen : List String) :
    (∀ a : String, (processPages seen pages).rows.count a =
      if a ∈ allIds pages ∧ a ∉ seen then 1 else 0) ∧
    (processPages seen pages).rows.length + (processPages seen pages).dups =
      (allIds pages).length := by
  constructor
  · intro a
    induction pages generalizing seen with
    | nil =>
      simp [processPages, allIds]
    | cons page rest ih =>
      rw [processPages]
      dsimp only
      rw [List.count_append, processNodes_count page seen a, ih]
      by_cases hs : a ∈ seen
      · have hs2 : a ∈ (processNodes seen page).seen :=
          (processNodes_seen_mem page seen a).mpr (Or.inl hs)
        simp [hs, hs2, allIds]
      · by_cases hp : a ∈ pageIds page
        · have hs2 : a ∈ (processNodes seen page).seen :=
            (processNodes_seen_mem page seen a).mpr (Or.inr hp)
          simp [hs, hs2, hp, allIds]
        · have hs2 : a ∉ (processNodes seen page).seen := by
            rw [processNodes_seen_mem page seen a]
            tauto
          simp only [hp, false_and, if_false, Nat.zero_add, hs2,
            not_false_eq_true, and_true, hs, allIds, List.map_cons,
            List.flatten_cons, List.mem_append]
          simp [hp]
  · induction pages generalizing seen with
    | nil =>
      simp [processPages, allIds]
    | cons page rest ih =>
      rw [processPages]
      dsimp only
      simp only [List.length_append, allIds, List.map_cons,
        List.flatten_cons]
      have h1 := processNodes_len page seen
      have h2 := ih (processNodes seen page).seen
      simp only [allIds] at h2
      omega

end Crawler

namespace Crawler

/-- A page never yields more rows than it has nodes. -/
theorem processNodes_rows_le (nodes : List (Option RepoNode)) :
    ∀ seen, (processNodes seen nodes).rows.length ≤ nodes.length := by
  induction nodes with
  | nil =>
    intro seen
    simp [processNodes]
  | cons head rest ih =>
    intro seen
    match head with
    | none =>
      rw [processNodes]
      exact Nat.le_succ_of_le (ih seen)
    | some node =>
      by_cases hid : node.node_id = ""
      · rw [processNodes, if_pos hid]
        exact Nat.le_succ_of_le (ih seen)
      · by_cases hseen : node.node_id ∈ seen
        · rw [processNodes, if_neg hid, if_pos hseen]
          exact Nat.le_succ_of_le (ih seen)
        · rw [processNodes, if_neg hid, if_neg hseen]
          dsimp only
          simp only [List.length_cons]
          exact Nat.succ_le_succ (ih (node.node_id :: seen))

/-- C10's core: `_ingest_partition` never persists more rows than its
`row_limit`, provided every response contains at most the requested number
of nodes. -/
theorem ingestLoop_persisted_le (env : Env)
    (page_size_setting row_limit base_persisted : ℕ)
    (henv : ∀ n k, ((env n k).nodes).length ≤ k) :
    ∀ fuel reqIdx persisted duplicates seen rows
      (block? : Option SearchBlock) log,
      persisted ≤ row_limit →
      (∀ b, block? = some b → b.nodes.length ≤ row_limit - persisted) →
      (ingestLoop env page_size_setting row_limit base_persisted fuel reqIdx
        persisted duplicates seen rows block? log).persisted ≤ row_limit := by
  intro fuel
  induction fuel with
  | zero =>
    intro reqIdx persisted duplicates seen rows block? log hle _hb
    simp only [ingestLoop]
    exact hle
  | succ n ih =>
    intro reqIdx persisted duplicates seen rows block? log hle hb
    simp only [ingestLoop]
    by_cases hfull : persisted ≥ row_limit
    · rw [if_pos hfull]
      exact hle
    · rw [if_neg hfull]
      match block? with
      | none =>
        dsimp only
        apply ih
        · exact hle
        · intro b hbeq
          have := henv reqIdx (min page_size_setting (row_limit - persisted))
          rw [← Option.some.inj hbeq]
          exact le_trans this (min_le_right _ _)
      | some blk =>
        dsimp only
        have hblk : blk.nodes.length ≤ row_limit - persisted :=
          hb blk rfl
        by_cases hempty : blk.nodes = []
        · rw [if_pos hempty]
          exact hle
        · rw [if_neg hempty]
          have hrows : (processNodes seen blk.nodes).rows.length ≤
              row_limit - persisted :=
            le_trans (processNodes_rows_le blk.nodes seen) hblk
          have hle' : persisted + (processNodes seen blk.nodes).rows.length ≤
              row_limit := by omega
          by_cases hnext : !blk.hasNextPage
          · rw [if_pos hnext]
            exact hle'
          · rw [if_neg hnext]
            match blk.endCursor with
            | none => exact hle'
            | some _ =>
              dsimp only
              apply ih
              · exact hle'
              · intro b hbeq
                exact Option.noConfusion hbeq

end Crawler

namespace Crawler

open Partitioning

/-- One loop iteration keeps the persisted counter within the target:
skip and split leave it unchanged, and ingestion adds at most the
remaining target. -/
theorem crawlStep_persisted_le (env : Env) (st : Settings) (today : Int)
    (ingestFuel : ℕ) (s : LoopState) (p : SearchPartition)
    (henv : ∀ n k, ((env n k).nodes).length ≤ k)
    (hlt : s.stats.repos_persisted < st.target_repo_count) :
    (crawlStep env st today ingestFuel s p).state.stats.repos_persisted ≤
      st.target_repo_count := by
  have hing : (ingestLoop env st.page_size
      (st.target_repo_count - s.stats.repos_persisted)
      s.stats.repos_persisted ingestFuel (s.reqIdx + 1) 0 0 s.seen []
      (some (env s.reqIdx
        (min st.page_size (st.target_repo_count - s.stats.repos_persisted))))
      (s.log ++ [⟨.probe,
        min st.page_size (st.target_repo_count - s.stats.repos_persisted),
        s.stats.repos_persisted⟩])).persisted ≤
      st.target_repo_count - s.stats.repos_persisted := by
    apply ingestLoop_persisted_le env _ _ _ henv
    · exact Nat.zero_le _
    · intro b hb
      rw [← Option.some.inj hb]
      simpa using le_trans (henv _ _) (min_le_right _ _)
  cases hpc : partition_count (env s.reqIdx
      (min st.page_size (st.target_repo_count - s.stats.repos_persisted))) with
  | error m =>
    simp only [crawlStep, hpc, StepOut.state]
    exact le_of_lt hlt
  | ok cnt =>
    by_cases h0 : cnt = 0
    · simp only [crawlStep, hpc, if_pos h0, StepOut.state]
      exact le_of_lt hlt
    · by_cases hcap : cnt > st.max_partition_results
      · cases hsp : split_partition p today with
        | none =>
          simp only [crawlStep, hpc, if_neg h0, if_pos hcap, hsp,
            StepOut.state]
          omega
        | some pr =>
          cases pr with
          | mk c1 c2 =>
            simp only [crawlStep, hpc, if_neg h0, if_pos hcap, hsp,
              StepOut.state]
            exact le_of_lt hlt
      · simp only [crawlStep, hpc, if_neg h0, if_neg hcap, StepOut.state]
        omega

end Crawler

namespace Crawler

open Partitioning

/-- The whole partition loop keeps the persisted counter within the
target. -/
theorem crawlLoop_persisted_le (env : Env) (st : Settings) (today : Int)
    (ingestFuel : ℕ) (henv : ∀ n k, ((env n k).nodes).length ≤ k) :
    ∀ fuel (s : LoopState),
      s.stats.repos_persisted ≤ st.target_repo_count →
      (loopFinalState (crawlLoop env st today ingestFuel fuel s)).stats.repos_persisted ≤
        st.target_repo_count := by
  intro fuel
  induction fuel with
  | zero =>
    intro s hle
    simp only [crawlLoop, loopFinalState]
    exact hle
  | succ n ih =>
    intro s hle
    rw [crawlLoop]
    by_cases hcond : s.queue ≠ [] ∧
        s.stats.repos_persisted < st.target_repo_count
    · rw [if_pos hcond]
      cases hpop : heappop s.queue with
      | none =>
        simp only [loopFinalState]
        exact hle
      | some er =>
        cases er with
        | mk e rest =>
          dsimp only
          have hstep := crawlStep_persisted_le env st today ingestFuel
            { s with queue := rest } e.partition henv hcond.2
          cases hcs : crawlStep env st today ingestFuel
              { s with queue := rest } e.partition with
          | next s' =>
            rw [hcs] at hstep
            simp only [StepOut.state] at hstep
            exact ih s' hstep
          | raised m s' =>
            rw [hcs] at hstep
            simp only [StepOut.state] at hstep
            simp only [loopFinalState]
            exact hstep
    · rw [if_neg hcond]
      simp only [loopFinalState]
      exact hle

/-- C10: provided every search response contains at most the requested
number of nodes, a run's persisted count never exceeds the configured
target — the returned stats respect it, every finalized run record's
count respects it, and a record finalized as `succeeded` carries exactly
the target count. -/
theorem crawl_once_target_spec (env : Env) (st : Settings) (today : Int)
    (loopFuel ingestFuel : ℕ)
    (henv : ∀ n k, ((env n k).nodes).length ≤ k) :
    (∀ stats, (crawl_once env st today loopFuel ingestFuel).outcome =
        .ok stats → stats.repos_persisted ≤ st.target_repo_count) ∧
    (∀ rec ∈ (crawl_once env st today loopFuel ingestFuel).finishes,
      rec.repo_count ≤ st.target_repo_count ∧
      (rec.status = "succeeded" →
        rec.repo_count = st.target_repo_count)) := by
  cases hms : max_stars_from_nodes (env 0 1).nodes with
  | error m =>
    simp only [crawl_once, hms]
    constructor
    · intro stats h
      exact Except.noConfusion h
    · intro rec hrec
      rw [List.mem_singleton] at hrec
      subst hrec
      dsimp only
      refine ⟨Nat.zero_le _, ?_⟩
      intro h
      exact absurd h (by decide)
  | ok msv =>
    have hb := crawlLoop_persisted_le env st today ingestFuel henv loopFuel
      ⟨push_partition [] 0 ⟨st.min_stars, msv, none, none⟩, 1,
        ⟨0, 0, 0, 0, 0, msv⟩, [], 1, [⟨.maxStars, 1, 0⟩]⟩
      (Nat.zero_le _)
    cases hloop : crawlLoop env st today ingestFuel loopFuel
        ⟨push_partition [] 0 ⟨st.min_stars, msv, none, none⟩, 1,
          ⟨0, 0, 0, 0, 0, msv⟩, [], 1, [⟨.maxStars, 1, 0⟩]⟩ with
    | ok sf =>
      rw [hloop] at hb
      simp only [loopFinalState] at hb
      simp only [crawl_once, hms, hloop]
      constructor
      · intro stats h
        rw [← Except.ok.inj h]
        exact hb
      · intro rec hrec
        rw [List.mem_singleton] at hrec
        subst hrec
        dsimp only
        refine ⟨hb, ?_⟩
        by_cases hge : sf.stats.repos_persisted ≥ st.target_repo_count
        · rw [if_pos hge]
          intro _
          omega
        · rw [if_neg hge]
          intro h
          exact absurd h (by decide)
    | error ms =>
      cases ms with
      | mk m sf =>
        rw [hloop] at hb
        simp only [loopFinalState] at hb
        simp only [crawl_once, hms, hloop]
        constructor
        · intro stats h
          exact Except.noConfusion h
        · intro rec hrec
          rw [List.mem_singleton] at hrec
          subst hrec
          dsimp only
          refine ⟨hb, ?_⟩
          intro h
          exact absurd h (by decide)

/-- Witness for C10: an environment answering every request with an empty
node list (so at most the requested number of nodes), target 5. -/
theorem crawl_once_target_spec_witness :
    (∀ stats,
      (crawl_once (fun _ _ => ⟨some 0, none, false, none, []⟩)
          ⟨5, 2, 0, 3⟩ 0 2 2).outcome = .ok stats →
      stats.repos_persisted ≤ 5) ∧
    (∀ rec ∈ (crawl_once (fun _ _ => ⟨some 0, none, false, none, []⟩)
        ⟨5, 2, 0, 3⟩ 0 2 2).finishes,
      rec.repo_count ≤ 5 ∧
      (rec.status = "succeeded" → rec.repo_count = 5)) :=
  crawl_once_target_spec (fun _ _ => ⟨some 0, none, false, none, []⟩)
    ⟨5, 2, 0, 3⟩ 0 2 2 (fun _ k => Nat.zero_le k)

end Crawler

namespace Crawler

open Partitioning

/-- C5: every `crawl_once` invocation finalizes the run record exactly
once before returning or re-raising — with `succeeded` when the persisted
count reached the target, `partial` otherwise, and `failed` carrying the
escaped error's text (which then propagates as the call's outcome); no
invocation leaves a record with status `running`. -/
theorem crawl_once_finalize_spec (env : Env) (st : Settings) (today : Int)
    (loopFuel ingestFuel : ℕ) :
    (crawl_once env st today loopFuel ingestFuel).finishes.length = 1 ∧
    (∀ rec ∈ (crawl_once env st today loopFuel ingestFuel).finishes,
      (rec.status = "succeeded" ∨ rec.status = "partial" ∨
        rec.status = "failed") ∧ rec.status ≠ "running") ∧
    (∀ stats, (crawl_once env st today loopFuel ingestFuel).outcome =
        .ok stats →
      ∀ rec ∈ (crawl_once env st today loopFuel ingestFuel).finishes,
        rec.error_message = none ∧
        rec.repo_count = stats.repos_persisted ∧
        (stats.repos_persisted ≥ st.target_repo_count →
          rec.status = "succeeded") ∧
        (stats.repos_persisted < st.target_repo_count →
          rec.status = "partial")) ∧
    (∀ m, (crawl_once env st today loopFuel ingestFuel).outcome =
        .error m →
      ∀ rec ∈ (crawl_once env st today loopFuel ingestFuel).finishes,
        rec.status = "failed" ∧ rec.error_message = some m) := by
  cases hms : max_stars_from_nodes (env 0 1).nodes with
  | error m =>
    simp only [crawl_once, hms]
    refine ⟨rfl, ?_, ?_, ?_⟩
    · intro rec hrec
      rw [List.mem_singleton] at hrec
      subst hrec
      dsimp only
      exact ⟨Or.inr (Or.inr rfl), by decide⟩
    · intro stats h
      exact Except.noConfusion h
    · intro m' h rec hrec
      rw [List.mem_singleton] at hrec
      subst hrec
      exact ⟨rfl, by rw [← Except.error.inj h]⟩
  | ok msv =>
    cases hloop : crawlLoop env st today ingestFuel loopFuel
        ⟨push_partition [] 0 ⟨st.min_stars, msv, none, none⟩, 1,
          ⟨0, 0, 0, 0, 0, msv⟩, [], 1, [⟨.maxStars, 1, 0⟩]⟩ with
    | ok sf =>
      simp only [crawl_once, hms, hloop]
      refine ⟨rfl, ?_, ?_, ?_⟩
      · intro rec hrec
        rw [List.mem_singleton] at hrec
        subst hrec
        dsimp only
        by_cases hge : sf.stats.repos_persisted ≥ st.target_repo_count
        · rw [if_pos hge]
          exact ⟨Or.inl rfl, by decide⟩
        · rw [if_neg hge]
          exact ⟨Or.inr (Or.inl rfl), by decide⟩
      · intro stats h rec hrec
        rw [List.mem_singleton] at hrec
        subst hrec
        rw [← Except.ok.inj h]
        dsimp only
        refine ⟨rfl, rfl, ?_, ?_⟩
        · intro hge
          rw [if_pos hge]
        · intro hlt
          rw [if_neg (by omega)]
      · intro m' h
        exact absurd h (by simp)
    | error ms =>
      cases ms with
      | mk m sf =>
        simp only [crawl_once, hms, hloop]
        refine ⟨rfl, ?_, ?_, ?_⟩
        · intro rec hrec
          rw [List.mem_singleton] at hrec
          subst hrec
          dsimp only
          exact ⟨Or.inr (Or.inr rfl), by decide⟩
        · intro stats h
          exact Except.noConfusion h
        · intro m' h rec hrec
          rw [List.mem_singleton] at hrec
          subst hrec
          exact ⟨rfl, by rw [← Except.error.inj h]⟩

/-- Witness for C5: the empty-responses environment, whose run fails at
the star-ceiling probe and is finalized as `failed`. -/
theorem crawl_once_finalize_spec_witness :
    ∀ rec ∈ (crawl_once (fun _ _ => ⟨some 0, none, false, none, []⟩)
        ⟨5, 2, 0, 3⟩ 0 2 2).finishes,
      rec.status = "failed" ∧
      rec.error_message =
        some "Could not determine maximum stargazer count from GitHub." :=
  (crawl_once_finalize_spec (fun _ _ => ⟨some 0, none, false, none, []⟩)
      ⟨5, 2, 0, 3⟩ 0 2 2).2.2.2
    "Could not determine maximum stargazer count from GitHub." rfl

end Crawler

namespace Crawler

open Partitioning

/-- Ingestion only ever appends page-fetch entries to the request log. -/
theorem ingestLoop_log (env : Env)
    (page_size_setting row_limit base_persisted : ℕ) :
    ∀ fuel reqIdx persisted duplicates seen rows
      (block? : Option SearchBlock) log,
      ∀ r ∈ (ingestLoop env page_size_setting row_limit base_persisted fuel
        reqIdx persisted duplicates seen rows block? log).log,
        r ∈ log ∨ r.kind = .ingestPage := by
  intro fuel
  induction fuel with
  | zero =>
    intro reqIdx persisted duplicates seen rows block? log r hr
    simp only [ingestLoop] at hr
    exact Or.inl hr
  | succ n ih =>
    intro reqIdx persisted duplicates seen rows block? log r hr
    simp only [ingestLoop] at hr
    by_cases hfull : persisted ≥ row_limit
    · rw [if_pos hfull] at hr
      exact Or.inl hr
    · rw [if_neg hfull] at hr
      match block? with
      | none =>
        dsimp only at hr
        rcases ih _ _ _ _ _ _ _ r hr with h | h
        · rcases List.mem_append.mp h with h2 | h2
          · exact Or.inl h2
          · rw [List.mem_singleton] at h2
            subst h2
            exact Or.inr rfl
        · exact Or.inr h
      | some blk =>
        dsimp only at hr
        by_cases hempty : blk.nodes = []
        · rw [if_pos hempty] at hr
          exact Or.inl hr
        · rw [if_neg hempty] at hr
          by_cases hnext : !blk.hasNextPage
          · rw [if_pos hnext] at hr
            exact Or.inl hr
          · rw [if_neg hnext] at hr
            cases hcur : blk.endCursor with
            | none =>
              rw [hcur] at hr
              dsimp only at hr
              exact Or.inl hr
            | some c =>
              rw [hcur] at hr
              dsimp only at hr
              exact ih _ _ _ _ _ _ _ r hr

/-- One loop iteration appends to the log only its own probe entry
(recording `first = min(page_size, target - persisted)` and the persisted
count at the probe) and page-fetch entries. -/
theorem crawlStep_log (env : Env) (st : Settings) (today : Int)
    (ingestFuel : ℕ) (s : LoopState) (p : SearchPartition) :
    ∀ r ∈ (crawlStep env st today ingestFuel s p).state.log,
      r ∈ s.log ∨ r.kind = .ingestPage ∨
      r = ⟨.probe,
        min st.page_size (st.target_repo_count - s.stats.repos_persisted),
        s.stats.repos_persisted⟩ := by
  have hbase : ∀ r : Request, r ∈ s.log ++ [⟨.probe,
      min st.page_size (st.target_repo_count - s.stats.repos_persisted),
      s.stats.repos_persisted⟩] → r ∈ s.log ∨ r.kind = .ingestPage ∨
      r = ⟨.probe,
        min st.page_size (st.target_repo_count - s.stats.repos_persisted),
        s.stats.repos_persisted⟩ := by
    intro r hr
    rcases List.mem_append.mp hr with h | h
    · exact Or.inl h
    · rw [List.mem_singleton] at h
      exact Or.inr (Or.inr h)
  cases hpc : partition_count (env s.reqIdx
      (min st.page_size (st.target_repo_count - s.stats.repos_persisted))) with
  | error m =>
    simp only [crawlStep, hpc, StepOut.state]
    exact hbase
  | ok cnt =>
    by_cases h0 : cnt = 0
    · simp only [crawlStep, hpc, if_pos h0, StepOut.state]
      exact hbase
    · by_cases hcap : cnt > st.max_partition_results
      · cases hsp : split_partition p today with
        | none =>
          simp only [crawlStep, hpc, if_neg h0, if_pos hcap, hsp,
            StepOut.state]
          intro r hr
          rcases ingestLoop_log env st.page_size _ _ ingestFuel _ _ _ _ _ _ _
            r hr with h | h
          · exact hbase r h
          · exact Or.inr (Or.inl h)
        | some pr =>
          cases pr with
          | mk c1 c2 =>
            simp only [crawlStep, hpc, if_neg h0, if_pos hcap, hsp,
              StepOut.state]
            exact hbase
      · simp only [crawlStep, hpc, if_neg h0, if_neg hcap, StepOut.state]
        intro r hr
        rcases ingestLoop_log env st.page_size _ _ ingestFuel _ _ _ _ _ _ _
          r hr with h | h
        · exact hbase r h
        · exact Or.inr (Or.inl h)

end Crawler

namespace Crawler

open Partitioning

/-- The probe-entry shape is preserved by the whole loop: every log entry
of the final state either was there initially or is a page fetch or is a
probe recording `first = min(page_size, target - persistedBefore)`. -/
theorem crawlLoop_log (env : Env) (st : Settings) (today : Int)
    (ingestFuel : ℕ) :
    ∀ fuel (s : LoopState),
      (∀ r ∈ s.log, r.kind = .probe →
        r.first = min st.page_size
          (st.target_repo_count - r.persistedBefore)) →
      ∀ r ∈ (loopFinalState (crawlLoop env st today ingestFuel fuel s)).log,
        r.kind = .probe →
        r.first = min st.page_size
          (st.target_repo_count - r.persistedBefore) := by
  intro fuel
  induction fuel with
  | zero =>
    intro s hs
    simp only [crawlLoop, loopFinalState]
    exact hs
  | succ n ih =>
    intro s hs
    rw [crawlLoop]
    by_cases hcond : s.queue ≠ [] ∧
        s.stats.repos_persisted < st.target_repo_count
    · rw [if_pos hcond]
      cases hpop : heappop s.queue with
      | none =>
        simp only [loopFinalState]
        exact hs
      | some er =>
        cases er with
        | mk e rest =>
          dsimp only
          have hstep := crawlStep_log env st today ingestFuel
            { s with queue := rest } e.partition
          have hnextlog : ∀ r ∈ (crawlStep env st today ingestFuel
              { s with queue := rest } e.partition).state.log,
              r.kind = .probe →
              r.first = min st.page_size
                (st.target_repo_count - r.persistedBefore) := by
            intro r hr hk
            rcases hstep r hr with h | h | h
            · exact hs r h hk
            · rw [h] at hk
              exact ReqKind.noConfusion hk
            · rw [h]
          cases hcs : crawlStep env st today ingestFuel
              { s with queue := rest } e.partition with
          | next s' =>
            rw [hcs] at hnextlog
            simp only [StepOut.state] at hnextlog
            exact ih s' hnextlog
          | raised m s' =>
            rw [hcs] at hnextlog
            simp only [StepOut.state, loopFinalState] at hnextlog ⊢
            exact hnextlog
    · rw [if_neg hcond]
      simp only [loopFinalState]
      exact hs

/-- C8 amended: the probe that determines a popped partition's matching
count is the first page request of the iteration, issued with
`first = min(page_size, target - persisted so far)` — not with page size 1
— and its result block is reused as the first ingestion page.  Every probe
entry in a run's request log carries that page size. -/
theorem probe_page_size_spec (env : Env) (st : Settings) (today : Int)
    (loopFuel ingestFuel : ℕ) :
    ∀ r ∈ (crawl_once env st today loopFuel ingestFuel).log,
      r.kind = .probe →
      r.first = min st.page_size
        (st.target_repo_count - r.persistedBefore) := by
  have hinit : ∀ r ∈ ([⟨.maxStars, 1, 0⟩] : List Request),
      r.kind = .probe →
      r.first = min st.page_size
        (st.target_repo_count - r.persistedBefore) := by
    intro r hr hk
    rw [List.mem_singleton] at hr
    subst hr
    exact ReqKind.noConfusion hk
  cases hms : max_stars_from_nodes (env 0 1).nodes with
  | error m =>
    simp only [crawl_once, hms]
    exact hinit
  | ok msv =>
    have hl := crawlLoop_log env st today ingestFuel loopFuel
      ⟨push_partition [] 0 ⟨st.min_stars, msv, none, none⟩, 1,
        ⟨0, 0, 0, 0, 0, msv⟩, [], 1, [⟨.maxStars, 1, 0⟩]⟩ hinit
    cases hloop : crawlLoop env st today ingestFuel loopFuel
        ⟨push_partition [] 0 ⟨st.min_stars, msv, none, none⟩, 1,
          ⟨0, 0, 0, 0, 0, msv⟩, [], 1, [⟨.maxStars, 1, 0⟩]⟩ with
    | ok sf =>
      rw [hloop] at hl
      simp only [loopFinalState] at hl
      simp only [crawl_once, hms, hloop]
      exact hl
    | error ms =>
      cases ms with
      | mk m sf =>
        rw [hloop] at hl
        simp only [loopFinalState] at hl
        simp only [crawl_once, hms, hloop]
        exact hl

end Crawler

namespace Crawler

open Partitioning

/-- C3 amended: when a popped partition's probed count exceeds the cap
and no split is possible, `crawl_once` does *not* skip or drop it — the
`split_result is None` branch falls through to ingestion: the skip and
split counters and the queue are left untouched (nothing is requeued) and
the partition is ingested, its rows counted into the run. -/
theorem overcap_unsplittable_ingest_spec (env : Env) (st : Settings)
    (today : Int) (ingestFuel : ℕ) (s : LoopState) (p : SearchPartition)
    (cnt : Int)
    (hpc : partition_count (env s.reqIdx
      (min st.page_size (st.target_repo_count - s.stats.repos_persisted))) =
      .ok cnt)
    (h0 : cnt ≠ 0) (hcap : cnt > st.max_partition_results)
    (hsp : split_partition p today = none) :
    ∃ r : IngestResult,
      r = ingestLoop env st.page_size
        (st.target_repo_count - s.stats.repos_persisted)
        s.stats.repos_persisted ingestFuel (s.reqIdx + 1) 0 0 s.seen []
        (some (env s.reqIdx
          (min st.page_size (st.target_repo_count - s.stats.repos_persisted))))
        (s.log ++ [⟨.probe,
          min st.page_size (st.target_repo_count - s.stats.repos_persisted),
          s.stats.repos_persisted⟩]) ∧
      crawlStep env st today ingestFuel s p = .next
        { queue := s.queue
          counterNext := s.counterNext
          stats :=
            { partitions_processed := s.stats.partitions_processed + 1
              partitions_split := s.stats.partitions_split
              partitions_skipped := s.stats.partitions_skipped
              repos_persisted := s.stats.repos_persisted + r.persisted
              duplicate_repo_nodes :=
                s.stats.duplicate_repo_nodes + r.duplicates
              max_star_count := s.stats.max_star_count }
          seen := r.seen
          reqIdx := r.reqIdx
          log := r.log } := by
  refine ⟨_, rfl, ?_⟩
  simp only [crawlStep, hpc, if_neg h0, if_pos hcap, hsp]

/-- Witness for C3 amended at a degenerate single-point partition
(`stars 5..5`, one-day window) probed at count 2000 against cap 1000. -/
theorem overcap_unsplittable_ingest_spec_witness :
    ∃ r : IngestResult,
      r = ingestLoop
        (fun _ _ => ⟨some 2000, none, false, none, [some ⟨"x", some 5⟩]⟩)
        10 100 0 3 1 0 0 [] []
        (some ⟨some 2000, none, false, none, [some ⟨"x", some 5⟩]⟩)
        [⟨.probe, 10, 0⟩] ∧
      crawlStep
        (fun _ _ => ⟨some 2000, none, false, none, [some ⟨"x", some 5⟩]⟩)
        ⟨100, 10, 0, 1000⟩ 400000 3 ⟨[], 5, ⟨0, 0, 0, 0, 0, 0⟩, [], 0, []⟩
        ⟨5, 5, some 100, some 100⟩ = .next
        { queue := []
          counterNext := 5
          stats :=
            { partitions_processed := 1
              partitions_split := 0
              partitions_skipped := 0
              repos_persisted := 0 + r.persisted
              duplicate_repo_nodes := 0 + r.duplicates
              max_star_count := 0 }
          seen := r.seen
          reqIdx := r.reqIdx
          log := r.log } :=
  overcap_unsplittable_ingest_spec
    (fun _ _ => ⟨some 2000, none, false, none, [some ⟨"x", some 5⟩]⟩)
    ⟨100, 10, 0, 1000⟩ 400000 3 ⟨[], 5, ⟨0, 0, 0, 0, 0, 0⟩, [], 0, []⟩
    ⟨5, 5, some 100, some 100⟩ 2000 rfl (by decide) (by decide) rfl

/-- C3 counterexample: the same concrete over-cap unsplittable partition.
The iteration ends with `partitions_skipped = 0` and `repos_persisted = 1`
(the partition was ingested and one row persisted), refuting "counted as
skipped and dropped without being ingested". -/
theorem overcap_unsplittable_counterexample :
    split_partition ⟨5, 5, some 100, some 100⟩ 400000 = none ∧
    ((2000 : Int) > 1000) ∧
    crawlStep
      (fun _ _ => ⟨some 2000, none, false, none, [some ⟨"x", some 5⟩]⟩)
      ⟨100, 10, 0, 1000⟩ 400000 3 ⟨[], 5, ⟨0, 0, 0, 0, 0, 0⟩, [], 0, []⟩
      ⟨5, 5, some 100, some 100⟩ =
      .next ⟨[], 5, ⟨1, 0, 0, 1, 0, 0⟩, ["x"], 1, [⟨.probe, 10, 0⟩]⟩ := by
  refine ⟨rfl, by decide, ?_⟩
  decide

/-- C8 counterexample: a tiny run (target 100, configured page size 10)
whose single probe request was issued with `first = 10` — the probe is not
a page-size-1 request. -/
theorem probe_page_size_counterexample :
    (crawl_once
      (fun n _ => if n = 0
        then ⟨none, none, false, none, [some ⟨"seed", some 50⟩]⟩
        else ⟨some 3, none, false, none, [some ⟨"a", some 7⟩]⟩)
      ⟨100, 10, 0, 1000⟩ 0 3 3).log =
      [⟨.maxStars, 1, 0⟩, ⟨.probe, 10, 0⟩] ∧
    (10 : ℕ) ≠ 1 := by
  exact ⟨by decide, by decide⟩

/-- Witness for C8 amended: the probe entry of the run above satisfies
`first = min(page_size, target - persistedBefore) = min 10 (100 - 0)`. -/
theorem probe_page_size_spec_witness :
    (⟨.probe, 10, 0⟩ : Request).first =
      min (10 : ℕ) (100 - (⟨.probe, 10, 0⟩ : Request).persistedBefore) :=
  probe_page_size_spec
    (fun n _ => if n = 0
      then ⟨none, none, false, none, [some ⟨"seed", some 50⟩]⟩
      else ⟨some 3, none, false, none, [some ⟨"a", some 7⟩]⟩)
    ⟨100, 10, 0, 1000⟩ 0 3 3 ⟨.probe, 10, 0⟩ (by decide) rfl

end Crawler
